import Mathlib

/- Verification of the rraytracer rendering core (src/main.rs).

   The Rust `f64` arithmetic is modelled over the real numbers `ℝ`
   (the real-closed idealisation of the floating-point code); the
   saturating-truncating cast `as u8` is modelled by `asU8`.  Images
   are modelled as total functions from pixel coordinates to RGB
   triples of natural numbers; `ImageBuffer::new` initialises every
   pixel to black `(0,0,0)`. -/

namespace RT

structure Vector where
  x : ℝ
  y : ℝ
  z : ℝ

def Vector.add (a b : Vector) : Vector :=
  ⟨a.x + b.x, a.y + b.y, a.z + b.z⟩

def Vector.mul (a : Vector) (k : ℝ) : Vector :=
  ⟨a.x * k, a.y * k, a.z * k⟩

def Vector.sub (a b : Vector) : Vector :=
  ⟨a.x - b.x, a.y - b.y, a.z - b.z⟩

def Vector.dot (a b : Vector) : ℝ :=
  a.x * b.x + a.y * b.y + a.z * b.z

def Vector.length_squared (v : Vector) : ℝ :=
  v.dot v

noncomputable def Vector.length (v : Vector) : ℝ :=
  Real.sqrt v.length_squared

noncomputable def Vector.normalize (v : Vector) : Vector :=
  ⟨v.x / v.length, v.y / v.length, v.z / v.length⟩

structure Ray where
  origin : Vector
  direction : Vector

structure Sphere where
  center : Vector
  radius : ℝ
  r : ℝ
  g : ℝ
  b : ℝ
  id : ℕ

/- fn intersect_ray_sphere(ray: &Ray, sphere: &Sphere) -> Option<Vector> -/
noncomputable def intersect_ray_sphere (ray : Ray) (sphere : Sphere) : Option Vector :=
  let l := sphere.center.sub ray.origin
  let angle := l.dot ray.direction
  if angle < 0 then none
  else
    let d2 := l.length_squared - angle * angle
    let r2 := sphere.radius * sphere.radius
    if d2 > r2 then none
    else
      let half_angle := Real.sqrt (r2 - d2)
      let t0 := angle - half_angle
      let hit_point := ray.origin.add (ray.direction.mul t0)
      let hit_normal := (hit_point.sub sphere.center).normalize
      some hit_normal

/- An 8-bit colour channel triple (the crate's Rgb<u8>). -/
structure Rgb where
  r : ℕ
  g : ℕ
  b : ℕ
  deriving DecidableEq

/- Rust `as u8` on an f64: truncate toward zero and saturate into [0, 255]. -/
noncomputable def asU8 (v : ℝ) : ℕ :=
  min 255 (⌊v⌋.toNat)

/- The per-sphere shading of lines 124-126: intensity is
   light_dir.dot(hit_normal).max(0.0), each channel scaled and cast. -/
noncomputable def shade (sphere : Sphere) (light_dir : Vector) (hit_normal : Vector) : Rgb :=
  let light_intensity := max (light_dir.dot hit_normal) 0
  ⟨asU8 (light_intensity * sphere.r), asU8 (light_intensity * sphere.g),
    asU8 (light_intensity * sphere.b)⟩

/- The compositing guard of line 128: rgb[0] > 0 || rgb[1] > 1 || rgb[2] > 0.
   Note the strict-greater-than-ONE on the green channel. -/
def blendOk (c : Rgb) : Prop :=
  0 < c.r ∨ 1 < c.g ∨ 0 < c.b

instance (c : Rgb) : Decidable (blendOk c) := by
  unfold blendOk
  exact inferInstance

/- Lines 128-130: Rgb<u8>::blend replaces the pixel, guarded by blendOk. -/
def composite (pix color : Rgb) : Rgb :=
  if blendOk color then color else pix

/- The per-pixel ray of lines 115-118: origin (x, y, 0), direction (0, 0, 1). -/
def pixelRay (x y : ℕ) : Ray :=
  ⟨⟨(x : ℝ), (y : ℝ), 0⟩, ⟨0, 0, 1⟩⟩

/- Lines 121-124: the hit normal, or the zero sentinel on a miss. -/
noncomputable def hitNormalAt (sphere : Sphere) (x y : ℕ) : Vector :=
  match intersect_ray_sphere (pixelRay x y) sphere with
  | some t => t
  | none => ⟨0, 0, 0⟩

/- What one sphere's loop body does to one pixel's colour. -/
noncomputable def pixelStep (light_dir : Vector) (x y : ℕ) (pix : Rgb) (sphere : Sphere) : Rgb :=
  composite pix (shade sphere light_dir (hitNormalAt sphere x y))

/- One full-image pass for one sphere (the inner enumerate_pixels_mut loop). -/
noncomputable def spherePass (light_dir : Vector) (width height : ℕ)
    (img : ℕ → ℕ → Rgb) (sphere : Sphere) : ℕ → ℕ → Rgb :=
  fun x y => if x < width ∧ y < height then pixelStep light_dir x y (img x y) sphere else img x y

/- fn render_scene: spheres in the outer loop, pixels in the inner loop,
   starting from the all-black freshly allocated image. -/
noncomputable def render_scene (scene : List Sphere) (light_dir : Vector)
    (width height : ℕ) : ℕ → ℕ → Rgb :=
  scene.foldl (spherePass light_dir width height) (fun _ _ => ⟨0, 0, 0⟩)

/- The pixel-major formulation: at one pixel, fold the spheres in scene order. -/
noncomputable def renderPixel (scene : List Sphere) (light_dir : Vector) (x y : ℕ) : Rgb :=
  scene.foldl (pixelStep light_dir x y) ⟨0, 0, 0⟩

/- ---- The frame scheduler of fn main (lines 139-196). ---- -/

def max_threads : ℕ := 32

/- The frame range of the main loop: for x in 1..313. -/
def frameRange : List ℕ := List.range' 1 312

/- The scheduler's observable actions: spawning the rendering unit for a
   frame index, and joining every currently outstanding unit (the
   "Hack... waiting for threads" batch join, and the final drain). -/
inductive SchedEvent where
  | spawn (x : ℕ)
  | joinAll
  deriving DecidableEq

/- The trace of the scheduler loop, carrying the length of the `ts`
   vector: each iteration spawns and pushes, then, if ts.len() exceeds
   max_threads, joins every handle and clears the vector; after the
   range is exhausted the remaining handles are joined. -/
def schedEvents (K : ℕ) : List ℕ → ℕ → List SchedEvent
  | [], _ => [SchedEvent.joinAll]
  | x :: xs, c =>
      SchedEvent.spawn x ::
        (if K < c + 1 then SchedEvent.joinAll :: schedEvents K xs 0
         else schedEvents K xs (c + 1))

def inFlightStep (c : ℕ) : SchedEvent → ℕ
  | SchedEvent.spawn _ => c + 1
  | SchedEvent.joinAll => 0

/- Units logically in flight (spawned, not yet joined) after the events
   `es`, starting from `c` outstanding units. -/
def inFlight (c : ℕ) (es : List SchedEvent) : ℕ :=
  es.foldl inFlightStep c

def SchedEvent.frameOf : SchedEvent → Option ℕ
  | SchedEvent.spawn x => some x
  | SchedEvent.joinAll => none

/- format!("render{x:03}.png"): the frame index zero-padded to three
   decimal digits (every index of frameRange is below 1000). -/
def fname (x : ℕ) : String :=
  "render" ++
    ⟨[Nat.digitChar (x / 100 % 10), Nat.digitChar (x / 10 % 10), Nat.digitChar (x % 10)]⟩ ++
    ".png"

/- The filenames handed to image.save, one per spawned rendering unit,
   in spawn order. -/
def savedFiles (K : ℕ) (xs : List ℕ) : List String :=
  ((schedEvents K xs 0).filterMap SchedEvent.frameOf).map fname

/- The specification's per-channel formula: clamp to [0, 255], then
   truncate to an 8-bit unsigned integer. -/
noncomputable def clampTrunc8 (v : ℝ) : ℕ :=
  (⌊min (max v 0) 255⌋).toNat

/- ---- Helper lemmas ---- -/

lemma asU8_eq_clampTrunc8 (v : ℝ) : asU8 v = clampTrunc8 v := by
  unfold asU8 clampTrunc8
  rcases le_total v 0 with h | h
  · rw [max_eq_right h, min_eq_left (by norm_num : (0 : ℝ) ≤ 255)]
    have h1 : ⌊v⌋ ≤ 0 := Int.floor_nonpos h
    simp [Int.toNat_of_nonpos h1]
  · rw [max_eq_left h]
    rcases le_total v 255 with h2 | h2
    · rw [min_eq_left h2]
      have h3 : ⌊v⌋ ≤ 255 := by
        have := Int.floor_le_floor h2
        simpa using this
      have h4 : ⌊v⌋.toNat ≤ 255 := by omega
      omega
    · rw [min_eq_right h2]
      have h3 : (255 : ℤ) ≤ ⌊v⌋ := by
        rw [Int.le_floor]
        exact_mod_cast h2
      have h4 : ⌊(255 : ℝ)⌋ = 255 := by norm_num
      omega

lemma asU8_zero : asU8 0 = 0 := by
  simp [asU8]

lemma dot_zero_vec (l : Vector) : l.dot ⟨0, 0, 0⟩ = 0 := by
  simp [Vector.dot]

lemma shade_zero_normal (s : Sphere) (l : Vector) : shade s l ⟨0, 0, 0⟩ = ⟨0, 0, 0⟩ := by
  unfold shade
  rw [dot_zero_vec]
  norm_num [asU8_zero]

lemma blendOk_black : ¬ blendOk ⟨0, 0, 0⟩ := by
  decide

lemma composite_black (pix : Rgb) : composite pix ⟨0, 0, 0⟩ = pix := by
  simp [composite, blendOk_black]

lemma composite_of_blendOk (pix c : Rgb) (h : blendOk c) : composite pix c = c := by
  simp [composite, h]

/- ---- Concrete scenes used to exercise the theorems ---- -/

def A0 : Sphere := ⟨⟨0, 0, 5⟩, 1, 255, 0, 0, 0⟩

def B0 : Sphere := ⟨⟨3, 0, 5⟩, 3, 255, 255, 255, 1⟩

def B1 : Sphere := ⟨⟨0, 0, 5⟩, 1, 0, 0, 255, 1⟩

def C0 : Sphere := ⟨⟨100, 0, 5⟩, 1, 255, 255, 255, 2⟩

def D0 : Sphere := ⟨⟨0, 0, -5⟩, 1, 255, 255, 255, 3⟩

def E0 : Sphere := ⟨⟨0, 0, 1⟩, 2, 255, 255, 255, 4⟩

def G0 : Sphere := ⟨⟨0, 0, 5⟩, 1, 0, 255, 0, 5⟩

def light0 : Vector := ⟨0, 0, -1⟩

noncomputable def lightG : Vector := ⟨0, 0, -1 / 200⟩

lemma sqrt_nine : Real.sqrt 9 = 3 := by
  rw [show (9 : ℝ) = 3 ^ 2 by norm_num]
  exact Real.sqrt_sq (by norm_num)

lemma hit_A0 : intersect_ray_sphere (pixelRay 0 0) A0 = some ⟨0, 0, -1⟩ := by
  unfold intersect_ray_sphere pixelRay A0 Vector.normalize Vector.length
  norm_num [Vector.sub, Vector.dot, Vector.length_squared, Vector.add, Vector.mul]

lemma hit_B0 : intersect_ray_sphere (pixelRay 0 0) B0 = some ⟨-1, 0, 0⟩ := by
  unfold intersect_ray_sphere pixelRay B0 Vector.normalize Vector.length
  norm_num [Vector.sub, Vector.dot, Vector.length_squared, Vector.add, Vector.mul, sqrt_nine]

lemma hit_B1 : intersect_ray_sphere (pixelRay 0 0) B1 = some ⟨0, 0, -1⟩ := by
  unfold intersect_ray_sphere pixelRay B1 Vector.normalize Vector.length
  norm_num [Vector.sub, Vector.dot, Vector.length_squared, Vector.add, Vector.mul]

lemma hit_G0 : intersect_ray_sphere (pixelRay 0 0) G0 = some ⟨0, 0, -1⟩ := by
  unfold intersect_ray_sphere pixelRay G0 Vector.normalize Vector.length
  norm_num [Vector.sub, Vector.dot, Vector.length_squared, Vector.add, Vector.mul]

lemma miss_C0 : intersect_ray_sphere (pixelRay 0 0) C0 = none := by
  unfold intersect_ray_sphere pixelRay C0
  norm_num [Vector.sub, Vector.dot, Vector.length_squared]

lemma hitNormalAt_A0 : hitNormalAt A0 0 0 = ⟨0, 0, -1⟩ := by
  unfold hitNormalAt
  rw [hit_A0]

lemma hitNormalAt_B0 : hitNormalAt B0 0 0 = ⟨-1, 0, 0⟩ := by
  unfold hitNormalAt
  rw [hit_B0]

lemma hitNormalAt_B1 : hitNormalAt B1 0 0 = ⟨0, 0, -1⟩ := by
  unfold hitNormalAt
  rw [hit_B1]

lemma hitNormalAt_C0 : hitNormalAt C0 0 0 = ⟨0, 0, 0⟩ := by
  unfold hitNormalAt
  rw [miss_C0]

lemma shade_A0 : shade A0 light0 ⟨0, 0, -1⟩ = ⟨255, 0, 0⟩ := by
  unfold shade A0 light0
  norm_num [Vector.dot, asU8]

lemma shade_B0 : shade B0 light0 ⟨-1, 0, 0⟩ = ⟨0, 0, 0⟩ := by
  unfold shade B0 light0
  norm_num [Vector.dot, asU8]

lemma shade_B1 : shade B1 light0 ⟨0, 0, -1⟩ = ⟨0, 0, 255⟩ := by
  unfold shade B1 light0
  norm_num [Vector.dot, asU8]

lemma shade_G0 : shade G0 lightG ⟨0, 0, -1⟩ = ⟨0, 1, 0⟩ := by
  unfold shade G0 lightG
  have hfloor : ⌊(1 / 200 : ℝ) * 255⌋ = 1 := by
    rw [Int.floor_eq_iff]
    norm_num
  norm_num [Vector.dot, asU8, hfloor]

lemma render_two (A B : Sphere) (l : Vector) (w h x y : ℕ) (hx : x < w) (hy : y < h) :
    render_scene [A, B] l w h x y =
      composite (composite ⟨0, 0, 0⟩ (shade A l (hitNormalAt A x y)))
        (shade B l (hitNormalAt B x y)) := by
  simp [render_scene, spherePass, pixelStep, hx, hy]

lemma renderA0B0 : render_scene [A0, B0] light0 1920 1080 0 0 = ⟨255, 0, 0⟩ := by
  rw [render_two A0 B0 light0 1920 1080 0 0 (by norm_num) (by norm_num),
    hitNormalAt_A0, hitNormalAt_B0, shade_A0, shade_B0, composite_black,
    composite_of_blendOk ⟨0, 0, 0⟩ ⟨255, 0, 0⟩ (by decide)]

lemma renderB0A0 : render_scene [B0, A0] light0 1920 1080 0 0 = ⟨255, 0, 0⟩ := by
  rw [render_two B0 A0 light0 1920 1080 0 0 (by norm_num) (by norm_num),
    hitNormalAt_A0, hitNormalAt_B0, shade_A0, shade_B0, composite_black]
  exact composite_of_blendOk ⟨0, 0, 0⟩ ⟨255, 0, 0⟩ (by decide)

/- ---- Claims about the renderer ---- -/

/-- C1: the compositing guard of render_scene tests the green channel
    against 1, not 0.  At pixel (0,0) the sphere G0 is genuinely hit and
    shades to (0, 1, 0), whose green channel is strictly positive, yet
    the colour is not composited: the pixel keeps its previous colour.
    This contradicts the claim that a shaded colour is blended if and
    only if at least one channel is strictly positive; the spec states
    the evident intent, the comparison rgb[1] > 1 in the source is a
    slip for rgb[1] > 0. -/
theorem blend_guard_skips_positive_green :
    intersect_ray_sphere (pixelRay 0 0) G0 = some ⟨0, 0, -1⟩ ∧
    shade G0 lightG ⟨0, 0, -1⟩ = ⟨0, 1, 0⟩ ∧
    0 < (Rgb.mk 0 1 0).g ∧
    composite ⟨7, 7, 7⟩ ⟨0, 1, 0⟩ = ⟨7, 7, 7⟩ :=
  ⟨hit_G0, shade_G0, by decide, by decide⟩

/-- C2 (counterexample): at pixel (0,0) both A0 and B0 are hit, yet the
    scenes [A0, B0] and [B0, A0] render the identical colour there
    (refuting "identical only where exactly one is hit"), and the image
    rendered from [A0, B0] does not carry B0's shaded colour, because
    B0's tangential hit shades to black and the compositing guard skips
    it (refuting "where both are hit, [A, B] carries B's shading"). -/
theorem render_order_counterexample :
    (intersect_ray_sphere (pixelRay 0 0) A0).isSome = true ∧
    (intersect_ray_sphere (pixelRay 0 0) B0).isSome = true ∧
    render_scene [A0, B0] light0 1920 1080 0 0 = render_scene [B0, A0] light0 1920 1080 0 0 ∧
    render_scene [A0, B0] light0 1920 1080 0 0 ≠ shade B0 light0 (hitNormalAt B0 0 0) := by
  refine ⟨by rw [hit_A0]; rfl, by rw [hit_B0]; rfl, ?_, ?_⟩
  · rw [renderA0B0, renderB0A0]
  · rw [renderA0B0, hitNormalAt_B0, shade_B0]
    decide

/-- C2 (amended): for every two spheres A and B, light direction and
    in-range pixel, the scenes [A, B] and [B, A] render identical
    colours wherever at most one of A, B is hit; where both are hit,
    [A, B] carries B's shaded colour provided that colour passes the
    compositing guard (r > 0 or g > 1 or b > 0), and [B, A] likewise
    carries A's shaded colour provided it passes the guard. -/
theorem render_order_amended (A B : Sphere) (l : Vector) (w h x y : ℕ)
    (hx : x < w) (hy : y < h) :
    (intersect_ray_sphere (pixelRay x y) A = none ∨ intersect_ray_sphere (pixelRay x y) B = none →
      render_scene [A, B] l w h x y = render_scene [B, A] l w h x y) ∧
    ((intersect_ray_sphere (pixelRay x y) A).isSome = true →
      (intersect_ray_sphere (pixelRay x y) B).isSome = true →
      blendOk (shade B l (hitNormalAt B x y)) →
      render_scene [A, B] l w h x y = shade B l (hitNormalAt B x y)) ∧
    ((intersect_ray_sphere (pixelRay x y) A).isSome = true →
      (intersect_ray_sphere (pixelRay x y) B).isSome = true →
      blendOk (shade A l (hitNormalAt A x y)) →
      render_scene [B, A] l w h x y = shade A l (hitNormalAt A x y)) := by
  refine ⟨?_, ?_, ?_⟩
  · intro hmiss
    rw [render_two A B l w h x y hx hy, render_two B A l w h x y hx hy]
    rcases hmiss with hA | hB
    · have hn : hitNormalAt A x y = ⟨0, 0, 0⟩ := by unfold hitNormalAt; rw [hA]
      rw [hn, shade_zero_normal]
      simp [composite_black]
    · have hn : hitNormalAt B x y = ⟨0, 0, 0⟩ := by unfold hitNormalAt; rw [hB]
      rw [hn, shade_zero_normal]
      simp [composite_black]
  · intro _ _ hOk
    rw [render_two A B l w h x y hx hy, composite_of_blendOk _ _ hOk]
  · intro _ _ hOk
    rw [render_two B A l w h x y hx hy, composite_of_blendOk _ _ hOk]

/-- C2 (amended, witness): the amended statement exercised at pixel
    (0,0) with the concrete spheres A0 (hit), C0 (missed) and B1
    (hit, shading to a colour passing the guard). -/
theorem render_order_amended_witness :
    render_scene [A0, C0] light0 1920 1080 0 0 = render_scene [C0, A0] light0 1920 1080 0 0 ∧
    render_scene [A0, B1] light0 1920 1080 0 0 = shade B1 light0 (hitNormalAt B1 0 0) ∧
    render_scene [B1, A0] light0 1920 1080 0 0 = shade A0 light0 (hitNormalAt A0 0 0) := by
  refine ⟨?_, ?_, ?_⟩
  · exact (render_order_amended A0 C0 light0 1920 1080 0 0 (by norm_num) (by norm_num)).1
      (Or.inr miss_C0)
  · exact (render_order_amended A0 B1 light0 1920 1080 0 0 (by norm_num) (by norm_num)).2.1
      (by rw [hit_A0]; rfl) (by rw [hit_B1]; rfl)
      (by rw [hitNormalAt_B1, shade_B1]; decide)
  · exact (render_order_amended A0 B1 light0 1920 1080 0 0 (by norm_num) (by norm_num)).2.2
      (by rw [hit_A0]; rfl) (by rw [hit_B1]; rfl)
      (by rw [hitNormalAt_A0, shade_A0]; decide)

lemma foldl_pass_pixel (l : Vector) (w h x y : ℕ) (hx : x < w) (hy : y < h) :
    ∀ (scene : List Sphere) (img : ℕ → ℕ → Rgb),
      (scene.foldl (spherePass l w h) img) x y = scene.foldl (pixelStep l x y) (img x y) := by
  intro scene
  induction scene with
  | nil => intro img; rfl
  | cons s rest ih =>
    intro img
    simp only [List.foldl_cons]
    rw [ih]
    congr 1
    simp [spherePass, hx, hy]

/-- C10: render_scene makes one full-image pass per sphere (spheres in
    the outer loop); at every in-range pixel it produces the same colour
    as folding the spheres in scene order at that single pixel (pixels
    outer, spheres inner), since each pixel depends only on its own
    previous value. -/
theorem render_scene_eq_renderPixel (scene : List Sphere) (l : Vector) (w h x y : ℕ)
    (hx : x < w) (hy : y < h) :
    render_scene scene l w h x y = renderPixel scene l x y := by
  unfold render_scene renderPixel
  exact foldl_pass_pixel l w h x y hx hy scene _

/-- C10 (witness): the loop-interchange equation at the concrete scene
    [A0] on the 1920 times 1080 grid at pixel (0,0). -/
theorem render_scene_eq_renderPixel_witness :
    render_scene [A0] light0 1920 1080 0 0 = renderPixel [A0] light0 0 0 :=
  render_scene_eq_renderPixel [A0] light0 1920 1080 0 0 (by norm_num) (by norm_num)

/-- C6: when the intersector returns none for a sphere at a pixel, the
    sentinel zero normal is used, every light direction gives dot 0 and
    an all-zero colour, and that sphere's processing leaves the pixel's
    previous colour unchanged. -/
theorem miss_leaves_pixel (s : Sphere) (l : Vector) (x y : ℕ) (pix : Rgb)
    (h : intersect_ray_sphere (pixelRay x y) s = none) :
    hitNormalAt s x y = ⟨0, 0, 0⟩ ∧ shade s l ⟨0, 0, 0⟩ = ⟨0, 0, 0⟩ ∧
      pixelStep l x y pix s = pix := by
  have hn : hitNormalAt s x y = ⟨0, 0, 0⟩ := by unfold hitNormalAt; rw [h]
  refine ⟨hn, shade_zero_normal s l, ?_⟩
  unfold pixelStep
  rw [hn, shade_zero_normal, composite_black]

/-- C6 (witness): the sphere C0 is missed at pixel (0,0), and the
    pixel's previous colour (9,9,9) survives its processing. -/
theorem miss_leaves_pixel_witness :
    hitNormalAt C0 0 0 = ⟨0, 0, 0⟩ ∧ shade C0 light0 ⟨0, 0, 0⟩ = ⟨0, 0, 0⟩ ∧
      pixelStep light0 0 0 ⟨9, 9, 9⟩ C0 = ⟨9, 9, 9⟩ :=
  miss_leaves_pixel C0 light0 0 0 ⟨9, 9, 9⟩ miss_C0

/-- C5: each channel of the shaded colour is the Rust u8 cast of
    intensity times the base channel, which equals the specification's
    clamp of max(0, dot(light, normal)) times the base channel into
    [0, 255], truncated to an 8-bit unsigned integer. -/
theorem shade_clamp_formula (s : Sphere) (l n : Vector) :
    shade s l n = ⟨clampTrunc8 (max 0 (l.dot n) * s.r), clampTrunc8 (max 0 (l.dot n) * s.g),
      clampTrunc8 (max 0 (l.dot n) * s.b)⟩ := by
  simp only [shade]
  rw [show max (l.dot n) 0 = max 0 (l.dot n) from max_comm _ _]
  simp only [asU8_eq_clampTrunc8]

/-- C4: whenever the signed projection of the centre offset onto the ray
    direction is strictly negative, intersect_ray_sphere returns none. -/
theorem behind_center_no_hit (ray : Ray) (s : Sphere)
    (h : (s.center.sub ray.origin).dot ray.direction < 0) :
    intersect_ray_sphere ray s = none := by
  simp only [intersect_ray_sphere]
  rw [if_pos h]

/-- C4 (witness): the sphere D0, centred at depth -5 behind the image
    plane, is reported as not hit by the ray of pixel (0,0). -/
theorem behind_center_no_hit_witness :
    intersect_ray_sphere (pixelRay 0 0) D0 = none :=
  behind_center_no_hit (pixelRay 0 0) D0
    (by norm_num [pixelRay, D0, Vector.sub, Vector.dot])

/-- C3: for a ray and sphere with non-negative projection angle, the
    intersector returns none exactly when the squared perpendicular
    distance d2 exceeds radius squared, and otherwise returns the
    normalised vector from the centre to origin + direction * t0 with
    t0 = angle - sqrt(radius^2 - d2). -/
theorem intersect_front_spec (ray : Ray) (s : Sphere) (angle d2 : ℝ)
    (ha : angle = (s.center.sub ray.origin).dot ray.direction)
    (hd : d2 = (s.center.sub ray.origin).length_squared - angle * angle)
    (h0 : 0 ≤ angle) :
    (s.radius * s.radius < d2 → intersect_ray_sphere ray s = none) ∧
    (d2 ≤ s.radius * s.radius →
      intersect_ray_sphere ray s =
        some (((ray.origin.add (ray.direction.mul
          (angle - Real.sqrt (s.radius * s.radius - d2)))).sub s.center).normalize)) := by
  subst ha
  subst hd
  simp only [intersect_ray_sphere]
  rw [if_neg (not_lt.mpr h0)]
  constructor
  · intro hlt
    rw [if_pos hlt]
  · intro hle
    rw [if_neg (not_lt.mpr hle)]

/-- C3 (witness): at pixel (0,0) the sphere C0 has projection angle 5
    and squared perpendicular distance 10000 > 1, so the theorem reports
    no intersection. -/
theorem intersect_front_spec_witness :
    intersect_ray_sphere (pixelRay 0 0) C0 = none := by
  refine (intersect_front_spec (pixelRay 0 0) C0 5 10000 ?_ ?_ (by norm_num)).1 ?_
  · norm_num [pixelRay, C0, Vector.sub, Vector.dot]
  · norm_num [pixelRay, C0, Vector.sub, Vector.dot, Vector.length_squared]
  · norm_num [C0]

/-- C9: for a ray whose origin lies strictly inside the sphere and whose
    projection angle is non-negative, the intersector returns a hit (it
    never tests t0 for non-negativity), and whenever angle is smaller
    than sqrt(radius^2 - d2) the parameter t0 is negative, i.e. the hit
    point at which the returned normal is computed lies behind the ray
    origin. -/
theorem inside_origin_hit (ray : Ray) (s : Sphere) (angle d2 : ℝ)
    (ha : angle = (s.center.sub ray.origin).dot ray.direction)
    (hd : d2 = (s.center.sub ray.origin).length_squared - angle * angle)
    (h0 : 0 ≤ angle)
    (hin : (s.center.sub ray.origin).length_squared < s.radius * s.radius) :
    intersect_ray_sphere ray s =
      some (((ray.origin.add (ray.direction.mul
        (angle - Real.sqrt (s.radius * s.radius - d2)))).sub s.center).normalize) ∧
    (angle < Real.sqrt (s.radius * s.radius - d2) →
      angle - Real.sqrt (s.radius * s.radius - d2) < 0) := by
  subst ha
  subst hd
  constructor
  · simp only [intersect_ray_sphere]
    rw [if_neg (not_lt.mpr h0)]
    have hsq : 0 ≤ ((s.center.sub ray.origin).dot ray.direction) *
        ((s.center.sub ray.origin).dot ray.direction) := mul_self_nonneg _
    rw [if_neg (by simp only [gt_iff_lt, not_lt]; linarith)]
  · intro hlt
    linarith

lemma sqrt_four : Real.sqrt 4 = 2 := by
  rw [show (4 : ℝ) = 2 ^ 2 by norm_num]
  exact Real.sqrt_sq (by norm_num)

/-- C9 (witness): the ray of pixel (0,0) starts strictly inside E0
    (centre (0,0,1), radius 2); the intersector returns a hit and the
    hit parameter t0 = 1 - sqrt(4) is negative. -/
theorem inside_origin_hit_witness :
    intersect_ray_sphere (pixelRay 0 0) E0 =
      some ((((pixelRay 0 0).origin.add ((pixelRay 0 0).direction.mul
        ((1 : ℝ) - Real.sqrt (E0.radius * E0.radius - 0)))).sub E0.center).normalize) ∧
    (1 : ℝ) - Real.sqrt (E0.radius * E0.radius - 0) < 0 := by
  have h := inside_origin_hit (pixelRay 0 0) E0 1 0
    (by norm_num [pixelRay, E0, Vector.sub, Vector.dot])
    (by norm_num [pixelRay, E0, Vector.sub, Vector.dot, Vector.length_squared])
    (by norm_num)
    (by norm_num [pixelRay, E0, Vector.sub, Vector.dot, Vector.length_squared])
  refine ⟨h.1, h.2 ?_⟩
  have h4 : Real.sqrt (E0.radius * E0.radius - 0) = 2 := by
    rw [show E0.radius * E0.radius - 0 = 4 by norm_num [E0]]
    exact sqrt_four
  rw [h4]
  norm_num

/- ---- Scheduler lemmas ---- -/

lemma prefix_cons_cases {α : Type} {p : List α} {a : α} {l : List α} (h : p <+: a :: l) :
    p = [] ∨ ∃ q, p = a :: q ∧ q <+: l := by
  rcases h with ⟨t, ht⟩
  cases p with
  | nil => exact Or.inl rfl
  | cons b q =>
    rw [List.cons_append] at ht
    injection ht with h1 h2
    subst h1
    exact Or.inr ⟨q, rfl, ⟨t, h2⟩⟩

lemma inFlight_cons (c : ℕ) (e : SchedEvent) (es : List SchedEvent) :
    inFlight c (e :: es) = inFlight (inFlightStep c e) es := rfl

lemma sched_prefix_bound (K : ℕ) :
    ∀ (xs : List ℕ) (c : ℕ), c ≤ K → ∀ p, p <+: schedEvents K xs c →
      inFlight c p ≤ K + 1 := by
  intro xs
  induction xs with
  | nil =>
    intro c hc p hp
    simp only [schedEvents] at hp
    rcases prefix_cons_cases hp with rfl | ⟨q, rfl, hq⟩
    · simpa [inFlight] using Nat.le_succ_of_le hc
    · have hq0 : q = [] := List.prefix_nil.mp hq
      subst hq0
      simp [inFlight, inFlightStep]
  | cons x xs ih =>
    intro c hc p hp
    simp only [schedEvents] at hp
    rcases prefix_cons_cases hp with rfl | ⟨q, rfl, hq⟩
    · simpa [inFlight] using Nat.le_succ_of_le hc
    · rw [inFlight_cons]
      simp only [inFlightStep]
      by_cases hK : K < c + 1
      · rw [if_pos hK] at hq
        rcases prefix_cons_cases hq with rfl | ⟨q', rfl, hq'⟩
        · simp [inFlight]
          omega
        · rw [inFlight_cons]
          simp only [inFlightStep]
          exact ih 0 (Nat.zero_le K) q' hq'
      · rw [if_neg hK] at hq
        exact ih (c + 1) (by omega) q hq

lemma sched_exceed_joins (K : ℕ) :
    ∀ (xs : List ℕ) (c : ℕ), c ≤ K → ∀ p, p <+: schedEvents K xs c →
      K < inFlight c p → p ++ [SchedEvent.joinAll] <+: schedEvents K xs c := by
  intro xs
  induction xs with
  | nil =>
    intro c hc p hp hgt
    simp only [schedEvents] at hp ⊢
    rcases prefix_cons_cases hp with rfl | ⟨q, rfl, hq⟩
    · simp [inFlight] at hgt
      omega
    · have hq0 : q = [] := List.prefix_nil.mp hq
      subst hq0
      simp [inFlight, inFlightStep] at hgt
  | cons x xs ih =>
    intro c hc p hp hgt
    simp only [schedEvents] at hp ⊢
    rcases prefix_cons_cases hp with rfl | ⟨q, rfl, hq⟩
    · simp [inFlight] at hgt
      omega
    · rw [inFlight_cons] at hgt
      simp only [inFlightStep] at hgt
      by_cases hK : K < c + 1
      · rw [if_pos hK] at hq ⊢
        rcases prefix_cons_cases hq with rfl | ⟨q', rfl, hq'⟩
        · exact ⟨schedEvents K xs 0, rfl⟩
        · rw [inFlight_cons] at hgt
          simp only [inFlightStep] at hgt
          rcases ih 0 (Nat.zero_le K) q' hq' hgt with ⟨t, ht⟩
          refine ⟨t, ?_⟩
          simp only [List.cons_append, List.append_assoc] at ht ⊢
          rw [ht]
      · rw [if_neg hK] at hq ⊢
        rcases ih (c + 1) (by omega) q hq hgt with ⟨t, ht⟩
        refine ⟨t, ?_⟩
        simp only [List.cons_append, List.append_assoc] at ht ⊢
        rw [ht]

lemma sched_final_count (K : ℕ) :
    ∀ (xs : List ℕ) (c : ℕ), inFlight c (schedEvents K xs c) = 0 := by
  intro xs
  induction xs with
  | nil => intro c; rfl
  | cons x xs ih =>
    intro c
    simp only [schedEvents]
    by_cases hK : K < c + 1
    · rw [if_pos hK, inFlight_cons, inFlight_cons]
      simp only [inFlightStep]
      exact ih 0
    · rw [if_neg hK, inFlight_cons]
      simp only [inFlightStep]
      exact ih (c + 1)

/-- C7: with max_threads = 32 and more than 32 frames, every prefix of
    the scheduler's event trace leaves at most 33 units logically in
    flight; whenever a prefix leaves more than 32 in flight the very
    next event joins every outstanding unit, and after the whole range
    the trace ends with no unit left in flight. -/
theorem scheduler_batches (N : ℕ) (_hN : max_threads < N) :
    (∀ p, p <+: schedEvents max_threads (List.range' 1 N) 0 →
      inFlight 0 p ≤ max_threads + 1) ∧
    (∀ p, p <+: schedEvents max_threads (List.range' 1 N) 0 →
      max_threads < inFlight 0 p →
      p ++ [SchedEvent.joinAll] <+: schedEvents max_threads (List.range' 1 N) 0) ∧
    inFlight 0 (schedEvents max_threads (List.range' 1 N) 0) = 0 :=
  ⟨fun p hp => sched_prefix_bound max_threads (List.range' 1 N) 0 (Nat.zero_le _) p hp,
   fun p hp hgt => sched_exceed_joins max_threads (List.range' 1 N) 0 (Nat.zero_le _) p hp hgt,
   sched_final_count max_threads (List.range' 1 N) 0⟩

/-- C7 (witness): with 33 frames, the prefix of 33 consecutive spawns
    leaves 33 units in flight and is followed by a join of all of them,
    and the full trace ends with zero in flight. -/
theorem scheduler_batches_witness :
    inFlight 0 [] ≤ max_threads + 1 ∧
    ((List.range' 1 33).map SchedEvent.spawn) ++ [SchedEvent.joinAll] <+:
      schedEvents max_threads (List.range' 1 33) 0 ∧
    inFlight 0 (schedEvents max_threads (List.range' 1 33) 0) = 0 := by
  have h := scheduler_batches 33 (by norm_num [max_threads])
  refine ⟨h.1 [] ⟨_, rfl⟩, h.2.1 _ ?_ ?_, h.2.2⟩
  · exact ⟨[SchedEvent.joinAll, SchedEvent.joinAll], by decide⟩
  · decide

/- ---- Filename / persistence lemmas ---- -/

lemma sched_spawn_frames (K : ℕ) :
    ∀ (xs : List ℕ) (c : ℕ), (schedEvents K xs c).filterMap SchedEvent.frameOf = xs := by
  intro xs
  induction xs with
  | nil => intro c; rfl
  | cons x xs ih =>
    intro c
    simp only [schedEvents]
    by_cases hK : K < c + 1
    · rw [if_pos hK]
      simp [List.filterMap_cons, SchedEvent.frameOf, ih 0]
    · rw [if_neg hK]
      simp [List.filterMap_cons, SchedEvent.frameOf, ih (c + 1)]

lemma fname_data (x : ℕ) :
    (fname x).data = ['r', 'e', 'n', 'd', 'e', 'r', Nat.digitChar (x / 100 % 10),
      Nat.digitChar (x / 10 % 10), Nat.digitChar (x % 10), '.', 'p', 'n', 'g'] := rfl

lemma digitChar_injOn : ∀ a < 10, ∀ b < 10, Nat.digitChar a = Nat.digitChar b → a = b := by
  decide

lemma fname_inj {i j : ℕ} (hi : i < 1000) (hj : j < 1000) (h : fname i = fname j) : i = j := by
  have hd := congrArg String.data h
  rw [fname_data, fname_data] at hd
  simp only [List.cons.injEq, and_true, true_and] at hd
  obtain ⟨h1, h2, h3⟩ := hd
  have e1 := digitChar_injOn _ (Nat.mod_lt _ (by norm_num)) _ (Nat.mod_lt _ (by norm_num)) h1
  have e2 := digitChar_injOn _ (Nat.mod_lt _ (by norm_num)) _ (Nat.mod_lt _ (by norm_num)) h2
  have e3 := digitChar_injOn _ (Nat.mod_lt _ (by norm_num)) _ (Nat.mod_lt _ (by norm_num)) h3
  omega

/-- C8: every frame index of the fixed range 1..312 is handed to
    persistence exactly once, under the filename render<index
    zero-padded to 3 digits>.png built from its own index, and distinct
    frame indices of the range never produce the same filename. -/
theorem frames_saved_once :
    (∀ i ∈ frameRange, (savedFiles max_threads frameRange).count (fname i) = 1) ∧
    (∀ i ∈ frameRange, ∀ j ∈ frameRange, fname i = fname j → i = j) := by
  have hmem : ∀ i ∈ frameRange, i < 1000 := by
    intro i hi
    have h := List.mem_range'_1.mp hi
    omega
  have hinj : ∀ i ∈ frameRange, ∀ j ∈ frameRange, fname i = fname j → i = j :=
    fun i hi j hj h => fname_inj (hmem i hi) (hmem j hj) h
  refine ⟨?_, hinj⟩
  intro i hi
  have hsav : savedFiles max_threads frameRange = frameRange.map fname := by
    unfold savedFiles
    rw [sched_spawn_frames]
  rw [hsav]
  have hnodup : (frameRange.map fname).Nodup :=
    List.Nodup.map_on hinj (List.nodup_range' 1 312)
  exact List.count_eq_one_of_mem hnodup (List.mem_map_of_mem fname hi)

/-- C8 (witness): frame 1 of the range is saved exactly once, and the
    filename map is injective at the pair (1, 1). -/
theorem frames_saved_once_witness :
    (savedFiles max_threads frameRange).count (fname 1) = 1 ∧ (1 : ℕ) = 1 := by
  have h1 : (1 : ℕ) ∈ frameRange := by
    simp [frameRange]
  exact ⟨frames_saved_once.1 1 h1, frames_saved_once.2 1 h1 1 h1 rfl⟩

end RT
